import Mathlib

/-!
# pmacct2vault: record parser, timestamp sequencer and emission loop

A shallow embedding of `src/pmacct2vault.c`.

* C strings are `List Char` (the bytes before the terminating NUL).
* `uint64_t` values are `Nat` with explicit reduction modulo `2 ^ 64`.
* The C library and the `anchor_stats` transport are the environment:
  `sscanf` is modelled for the conversions the program uses, with the
  behaviour of glibc in the "C" locale; the clock, the transport results and
  the lines returned by `fgets` are inputs of the model.
-/

namespace Pmacct2Vault

/-! ## Machine integers -/

/-- The number of values of a `uint64_t`. -/
def U64 : Nat := 2 ^ 64

/-- The largest `unsigned long`, `ULONG_MAX` on LP64. -/
def ULONG_MAX : Nat := 2 ^ 64 - 1

/-! ## C library: character classes and `sscanf` conversions -/

/-- A C string: the characters before the terminating NUL. -/
abbrev CStr := List Char

/-- The function `isspace` in the "C" locale: space, `\t`, `\n`, `\v`, `\f`, `\r`. -/
def isspace (c : Char) : Bool :=
  c.toNat = 32 || (9 ≤ c.toNat && c.toNat ≤ 13)

/-- The function `isdigit`: the decimal digits `0` to `9`. -/
def isdigit (c : Char) : Bool :=
  48 ≤ c.toNat && c.toNat ≤ 57

/-- Result of one input conversion of `sscanf`. -/
inductive Scan (α : Type) where
  /-- The input ended before any character of the item was read. -/
  | inputFailure : Scan α
  /-- The input does not match the conversion. -/
  | matchingFailure : Scan α
  /-- The conversion produced `val` and left `rest` unread. -/
  | ok (val : α) (rest : CStr) : Scan α
  deriving DecidableEq, Repr

/-- The conversion `%s` (also `%ms`, `%as` and `%*s`): skip white space, then
take the longest run of characters that are not white space. -/
def scanStr (inp : CStr) : Scan CStr :=
  match inp.dropWhile isspace with
  | [] => Scan.inputFailure
  | c :: r => Scan.ok ((c :: r).takeWhile (fun x => !isspace x)) ((c :: r).dropWhile (fun x => !isspace x))

/-- Value of a run of decimal digits, most significant first. -/
def decimalValue (ds : List Char) : Nat :=
  ds.foldl (fun acc d => 10 * acc + (d.toNat - 48)) 0

/-- The function `strtoul` of glibc in base 10 on a sign and a nonempty run of
digits: `ULONG_MAX` when the magnitude does not fit (with `ERANGE`),
otherwise the magnitude, negated modulo `2 ^ 64` after a minus sign. -/
def strtoul (negative : Bool) (ds : List Char) : Nat :=
  if ULONG_MAX < decimalValue ds then ULONG_MAX
  else if negative then (U64 - decimalValue ds) % U64
  else decimalValue ds

/-- The conversion `%lu`: skip white space, read an optional sign and the
longest run of decimal digits, and convert them with `strtoul`. No digit is a
matching failure; the range of the result is not checked. -/
def scanLu (inp : CStr) : Scan Nat :=
  match inp.dropWhile isspace with
  | [] => Scan.inputFailure
  | c :: r =>
    let negative := c = '-'
    let body := if c = '-' ∨ c = '+' then r else c :: r
    match body.takeWhile isdigit with
    | [] => Scan.matchingFailure
    | d :: ds => Scan.ok (strtoul negative (d :: ds)) (body.dropWhile isdigit)

/-- A conversion specification of a `sscanf` format. -/
inductive Conv where
  /-- The conversion `%*s`: a string that is read and not stored. -/
  | skipStr : Conv
  /-- The conversion `%ms`: a string stored in newly allocated memory. -/
  | allocStr : Conv
  /-- The conversion `%lu`: an `unsigned long`. -/
  | ulong : Conv
  deriving DecidableEq, Repr

/-- A value stored through a pointer argument of `sscanf`. -/
inductive Arg where
  /-- A string stored by `%ms`. -/
  | str (s : CStr) : Arg
  /-- An integer stored by `%lu`. -/
  | num (n : Nat) : Arg
  deriving DecidableEq, Repr

/-- The value `sscanf` returns when a conversion fails: `EOF` (`-1`) for an
input failure before any assignment, otherwise the number of assignments. -/
def failureReturn (inputFailure : Bool) (out : List Arg) : Int :=
  if inputFailure ∧ out.length = 0 then -1 else out.length

/-- The function `sscanf` on a format made of conversions only: run the
conversions in order on the input; `out` holds the values assigned so far.
Returns the return value and the assigned values. -/
def sscanf : List Conv → CStr → List Arg → Int × List Arg
  | [], _, out => (out.length, out)
  | Conv.skipStr :: fmt, inp, out =>
    match scanStr inp with
    | Scan.ok _ rest => sscanf fmt rest out
    | Scan.inputFailure => (failureReturn true out, out)
    | Scan.matchingFailure => (failureReturn false out, out)
  | Conv.allocStr :: fmt, inp, out =>
    match scanStr inp with
    | Scan.ok tok rest => sscanf fmt rest (out ++ [Arg.str tok])
    | Scan.inputFailure => (failureReturn true out, out)
    | Scan.matchingFailure => (failureReturn false out, out)
  | Conv.ulong :: fmt, inp, out =>
    match scanLu inp with
    | Scan.ok n rest => sscanf fmt rest (out ++ [Arg.num n])
    | Scan.inputFailure => (failureReturn true out, out)
    | Scan.matchingFailure => (failureReturn false out, out)

/-! ## `parse_pmacct_record` -/

/-- The format string of `parse_pmacct_record`:
seven `%*s`, `%ms%ms`, seven `%*s`, `%lu`. -/
def recordFormat : List Conv :=
  List.replicate 7 Conv.skipStr ++ [Conv.allocStr, Conv.allocStr]
    ++ List.replicate 7 Conv.skipStr ++ [Conv.ulong]

/-- What `parse_pmacct_record` returns and leaves in its three out
parameters. A string pointer is `none` when it is still `NULL`; `bytes` is
`none` when `*bytes` was not written. -/
structure ParseResult where
  ret : Int
  source_ip : Option CStr
  dest_ip : Option CStr
  bytes : Option Nat
  deriving DecidableEq, Repr

/-- The function `parse_pmacct_record`: both pointers start as `NULL`, then
`sscanf` runs on the line and the result is `1` when it assigned three values
and `0` otherwise. -/
def parse_pmacct_record (cs : CStr) : ParseResult :=
  let r := sscanf recordFormat cs []
  let ret : Int := if r.1 = 3 then 1 else 0
  match r.2 with
  | [] => ⟨ret, none, none, none⟩
  | [Arg.str s] => ⟨ret, some s, none, none⟩
  | [Arg.str s, Arg.str d] => ⟨ret, some s, some d, none⟩
  | [Arg.str s, Arg.str d, Arg.num n] => ⟨ret, some s, some d, some n⟩
  | _ => ⟨ret, none, none, none⟩

/-- The sample record of the comment in `parse_pmacct_record`. -/
def sampleLine : CStr :=
  "0 unknown 00:00:00:00:00:00 00:00:00:00:00:00 0 0 0 202.4.228.250 180.76.5.15 0 0 0 ip 0 24 0 34954".toList

/-! ## Clock and timestamp sequencing -/

/-- The function `timestamp_now`. The argument is what `clock_gettime` gave:
`none` when it failed, else `tv_sec` and `tv_nsec`. The result is `none` when
the program ends through `exit(2)`, else the returned `uint64_t`. -/
def timestamp_now (ts : Option (Int × Int)) : Option Nat :=
  match ts with
  | none => none
  | some (tv_sec, tv_nsec) => some ((tv_sec * 1000000000 + tv_nsec) % (U64 : Int)).toNat

/-- The exit status of `timestamp_now` when `clock_gettime` fails. -/
def clockExitStatus : Int := 2

/-- The sequencing step of `main`: from `last_timestamp` and the clock
reading `now`, the timestamp that is used and stored in `last_timestamp`.
```
timestamp = timestamp_now();
if (timestamp < last_timestamp) timestamp = last_timestamp + 1;
if (timestamp == last_timestamp) timestamp++;
last_timestamp = timestamp;
```
-/
def sequenceTimestamp (last_timestamp now : Nat) : Nat :=
  let timestamp := now
  let timestamp := if timestamp < last_timestamp then (last_timestamp + 1) % U64 else timestamp
  let timestamp := if timestamp = last_timestamp then (timestamp + 1) % U64 else timestamp
  timestamp

/-- The timestamps assigned by successive passes through the sequencing step,
one per clock reading, starting from `last_timestamp`. -/
def sequenceRun : Nat → List Nat → List Nat
  | _, [] => []
  | last_timestamp, now :: nows =>
    sequenceTimestamp last_timestamp now :: sequenceRun (sequenceTimestamp last_timestamp now) nows

/-! ## Emission -/

/-- A call made to the transport. -/
inductive Frame where
  /-- The call `as_send_int(connection, fields, values, n, value, timestamp)`. -/
  | as_send_int (fields values : List CStr) (n : Nat) (value : Nat) (timestamp : Nat) : Frame
  /-- The call `as_send_text(connection, fields, values, n, text, len, timestamp)`. -/
  | as_send_text (fields values : List CStr) (n : Nat) (text : CStr) (len : Nat)
      (timestamp : Nat) : Frame
  deriving DecidableEq, Repr

/-- The array `source_fields` of the four emit functions. -/
def source_fields : List CStr :=
  ["type".toList, "collection_point".toList, "ip".toList, "field".toList]

/-- The function `emit_tx_bytes`: the call it makes to `as_send_int`. -/
def emit_tx_bytes (_collection_point ip : CStr) (timestamp bytes : Nat) : Frame :=
  Frame.as_send_int source_fields
    ["ip_traffic".toList, "syd1".toList, ip, "tx_bytes".toList] 4 bytes timestamp

/-- The function `emit_rx_bytes`: the call it makes to `as_send_int`. -/
def emit_rx_bytes (_collection_point ip : CStr) (timestamp bytes : Nat) : Frame :=
  Frame.as_send_int source_fields
    ["ip_traffic".toList, "syd1".toList, ip, "rx_bytes".toList] 4 bytes timestamp

/-- The function `emit_dest_ip`: the call it makes to `as_send_text`. -/
def emit_dest_ip (_collection_point ip : CStr) (timestamp : Nat) (dest_ip : CStr) : Frame :=
  Frame.as_send_text source_fields
    ["ip_traffic".toList, "syd1".toList, ip, "dest_ip".toList] 4 dest_ip dest_ip.length timestamp

/-- The function `emit_src_ip`: the call it makes to `as_send_text`. -/
def emit_src_ip (_collection_point ip : CStr) (timestamp : Nat) (src_ip : CStr) : Frame :=
  Frame.as_send_text source_fields
    ["ip_traffic".toList, "syd1".toList, ip, "src_ip".toList] 4 src_ip src_ip.length timestamp

/-- The value a frame carries for the tag `key`: the entry of `values` at the
position of `key` in `fields`. -/
def Frame.tag (f : Frame) (key : CStr) : Option CStr :=
  match f with
  | Frame.as_send_int fields values _ _ _ => (fields.zip values).lookup key
  | Frame.as_send_text fields values _ _ _ _ => (fields.zip values).lookup key

/-! ## `main` -/

/-- What the program takes from its platform. -/
structure Env where
  /-- The constant `BUFSIZ` of `stdio.h`. -/
  BUFSIZ : Nat
  /-- Whether `as_consumer_new` returns a consumer (not `NULL`). -/
  as_consumer_new : Bool
  /-- Whether `as_connect` returns a connection (not `NULL`). -/
  as_connect : Bool
  /-- The result of the `n`-th call of `clock_gettime` (from 0): `none` when
  it fails, else `tv_sec` and `tv_nsec`. -/
  clock_gettime : Nat → Option (Int × Int)
  /-- The value returned by the `n`-th call (from 0) of `as_send_int` or
  `as_send_text`. -/
  as_send : Nat → Int

/-- The variables of `main` that live across passes of the loop, with the
calls made so far. -/
structure LoopState where
  last_timestamp : Nat
  /-- Number of calls of `clock_gettime` made so far. -/
  clockCalls : Nat
  /-- The transport calls made so far, oldest first. -/
  sent : List Frame
  deriving DecidableEq, Repr

/-- How one pass through the body of the `while` loop ends. -/
inductive Pass where
  /-- The pass ends with `continue` or at the end of the body. -/
  | next (s : LoopState) : Pass
  /-- The pass ends with `break`, after `retcode` was set. -/
  | stop (retcode : Int) (s : LoopState) : Pass
  /-- The process ends inside the pass with `exit(code)`. -/
  | exit (code : Int) (s : LoopState) : Pass
  deriving DecidableEq, Repr

/-- The first-character test of the loop: `buf[0] < '0' || buf[0] > '9'`.
An empty buffer holds only the terminating NUL. -/
def notNumericId (buf : CStr) : Bool :=
  decide (buf.headD (Char.ofNat 0) < '0') || decide (buf.headD (Char.ofNat 0) > '9')

/-- The C string `parse_pmacct_record` sees in `buf` after
`buf[BUFSIZ-1] = 0`: the characters before the first NUL, at most
`BUFSIZ - 1` of them. -/
def bufString (bufsiz : Nat) (buf : CStr) : CStr :=
  (buf.take (bufsiz - 1)).takeWhile (fun c => c ≠ Char.ofNat 0)

/-- One pass through the body of the `while` loop of `main`, on the buffer
`buf` that `fgets` filled. -/
def loop_body (env : Env) (collection_point : CStr) (buf : CStr) (st : LoopState) : Pass :=
  if notNumericId buf then Pass.next st
  else
    match timestamp_now (env.clock_gettime st.clockCalls) with
    | none => Pass.exit clockExitStatus { st with clockCalls := st.clockCalls + 1 }
    | some now =>
      let timestamp := sequenceTimestamp st.last_timestamp now
      let st1 : LoopState :=
        { st with last_timestamp := timestamp, clockCalls := st.clockCalls + 1 }
      let r := parse_pmacct_record (bufString env.BUFSIZ buf)
      if r.ret = 0 then Pass.next st1
      else
        -- the parser returned 1: both pointers and `bytes` are set (`parse_success_fields`)
        let source_ip := r.source_ip.getD []
        let dest_ip := r.dest_ip.getD []
        let bytes := r.bytes.getD 0
        let s1 := st1.sent ++ [emit_tx_bytes collection_point source_ip timestamp bytes]
        if env.as_send st1.sent.length ≤ 0 then Pass.stop 1 { st1 with sent := s1 }
        else
          let s2 := s1 ++ [emit_rx_bytes collection_point dest_ip timestamp bytes]
          if env.as_send s1.length ≤ 0 then Pass.stop 1 { st1 with sent := s2 }
          else
            let s3 := s2 ++ [emit_dest_ip collection_point source_ip timestamp dest_ip]
            if env.as_send s2.length ≤ 0 then Pass.stop 1 { st1 with sent := s3 }
            else
              let s4 := s3 ++ [emit_src_ip collection_point dest_ip timestamp source_ip]
              if env.as_send s3.length ≤ 0 then Pass.stop 1 { st1 with sent := s4 }
              else Pass.next { st1 with sent := s4 }

/-- The end of a run of the program: its exit status and the state of the
variables of `main` at that point. -/
structure Run where
  status : Int
  final : LoopState
  deriving DecidableEq, Repr

/-- The `while` loop of `main` and the `return retcode` after it. The list
holds the buffers filled by the successive calls of `fgets` that succeed;
`retcode` is 0 when the loop ends because `fgets` fails. -/
def main_loop (env : Env) (collection_point : CStr) : List CStr → LoopState → Run
  | [], st => ⟨0, st⟩
  | buf :: rest, st =>
    match loop_body env collection_point buf st with
    | Pass.next st1 => main_loop env collection_point rest st1
    | Pass.stop retcode st1 => ⟨retcode, st1⟩
    | Pass.exit code st1 => ⟨code, st1⟩

/-- The function `main`: `argv` holds the program name and its arguments,
`stdin` the buffers filled by the successive calls of `fgets`. -/
def main (env : Env) (argv : List CStr) (stdin : List CStr) : Run :=
  if argv.length < 3 then ⟨1, ⟨0, 0, []⟩⟩
  else
    let collection_point := argv.getD 1 []
    if !env.as_consumer_new then ⟨1, ⟨0, 0, []⟩⟩
    else if !env.as_connect then ⟨1, ⟨0, 0, []⟩⟩
    else
      match timestamp_now (env.clock_gettime 0) with
      | none => ⟨clockExitStatus, ⟨0, 1, []⟩⟩
      | some now => main_loop env collection_point stdin ⟨now, 1, []⟩

/-! ## Specification vocabulary -/

/-- The white-space-separated tokens of a line: its maximal runs of
characters that are not white space, in order. -/
def tokens : CStr → List CStr
  | [] => []
  | c :: cs =>
    if isspace c then tokens cs
    else
      match cs with
      | [] => [[c]]
      | d :: _ =>
        if isspace d then [c] :: tokens cs
        else
          match tokens cs with
          | [] => [[c]]
          | t :: ts => (c :: t) :: ts

/-- The first token of a line, as `%s` reads it: after the leading white
space, the longest run of characters that are not white space. -/
def firstToken (inp : CStr) : CStr :=
  (inp.dropWhile isspace).takeWhile (fun x => !isspace x)

/-- What is left of a line after its first token was read. -/
def afterToken (inp : CStr) : CStr :=
  (inp.dropWhile isspace).dropWhile (fun x => !isspace x)

/-- A token without its leading sign, when it has one. -/
def stripSign : CStr → CStr
  | [] => []
  | c :: r => if c = '-' ∨ c = '+' then r else c :: r

/-- A line of 17 tokens whose last token is the numeral `2 ^ 64`. -/
def overflowLine : CStr :=
  "1 2 3 4 5 6 7 10.0.0.1 10.0.0.2 10 11 12 13 14 15 16 18446744073709551616\n".toList

/-- A line of 17 tokens whose last token is not a numeral. -/
def textLine : CStr :=
  "1 2 3 4 5 6 7 10.0.0.1 10.0.0.2 10 11 12 13 14 15 16 -bytes\n".toList

/-- A line of 3 tokens that starts with a decimal digit. -/
def shortLine : CStr := "1 unknown 00:00:00:00:00:00\n".toList

/-- Every transport call made so far returned success (a value above 0). -/
def SendsOk (env : Env) (sent : List Frame) : Prop :=
  ∀ i, i < sent.length → 0 < env.as_send i

/-- The last transport call made returned failure (a value of 0 or less) and
the calls before it returned success. -/
def LastSendFailed (env : Env) (sent : List Frame) : Prop :=
  ∃ k, sent.length = k + 1 ∧ (∀ i, i < k → 0 < env.as_send i) ∧ env.as_send k ≤ 0

/-- Every call of `clock_gettime` made so far succeeded. -/
def ClocksOk (env : Env) (calls : Nat) : Prop :=
  ∀ n, n < calls → env.clock_gettime n ≠ none

/-- The last call of `clock_gettime` made failed and the calls before it
succeeded. -/
def LastClockFailed (env : Env) (calls : Nat) : Prop :=
  ∃ k, calls = k + 1 ∧ (∀ n, n < k → env.clock_gettime n ≠ none) ∧ env.clock_gettime k = none

/-- How the end of a pass relates to the results of the calls made. -/
def PassInv (env : Env) : Pass → Prop
  | Pass.next s => SendsOk env s.sent ∧ ClocksOk env s.clockCalls
  | Pass.stop retcode s => retcode = 1 ∧ LastSendFailed env s.sent ∧ ClocksOk env s.clockCalls
  | Pass.exit code s => code = 2 ∧ SendsOk env s.sent ∧ LastClockFailed env s.clockCalls

/-- How the exit status of a run that entered the loop relates to the results
of the calls made. -/
def RunInv (env : Env) (r : Run) : Prop :=
  (r.status = 0 ∧ SendsOk env r.final.sent ∧ ClocksOk env r.final.clockCalls) ∨
  (r.status = 1 ∧ LastSendFailed env r.final.sent ∧ ClocksOk env r.final.clockCalls) ∨
  (r.status = 2 ∧ SendsOk env r.final.sent ∧ LastClockFailed env r.final.clockCalls)

/-- A command line with the collection point `mel1`. -/
def exampleArgv : List CStr :=
  ["pmacct2vault".toList, "mel1".toList, "tcp://localhost:1234".toList]

/-- An environment whose clock succeeds at call 0 and fails afterwards. -/
def brokenClockEnv : Env :=
  ⟨8192, true, true, fun n => if n = 0 then some (1, 0) else none, fun _ => 1⟩

/-- The state of the variables of `main` at the end of a pass. -/
def Pass.state : Pass → LoopState
  | Pass.next s => s
  | Pass.stop _ s => s
  | Pass.exit _ s => s

/-- The run of the loop of `main` over the first `k` buffers of `stdin`. -/
def runPrefix (env : Env) (collection_point : CStr) (stdin : List CStr) (st : LoopState)
    (k : Nat) : Run :=
  main_loop env collection_point (stdin.take k) st

/-- Whether pass `j` (from 0) of the loop of `main` over `stdin` goes through
the sequencing step: the loop is still running after the first `j` buffers,
buffer `j` passes the first-character test, and the clock read of the pass
succeeds. -/
def passSequences (env : Env) (collection_point : CStr) (stdin : List CStr) (st : LoopState)
    (j : Nat) : Bool :=
  decide ((runPrefix env collection_point stdin st j).status = 0)
    && !notNumericId (stdin.getD j [])
    && (env.clock_gettime (runPrefix env collection_point stdin st j).final.clockCalls).isSome

/-- The timestamps that the successive passes of the loop of `main` over
`stdin` assign in the sequencing step, in order: for each pass that goes
through the step, the value `last_timestamp` holds in `main_loop` once the
pass is done. -/
def assignedTimestamps (env : Env) (collection_point : CStr) (stdin : List CStr)
    (st : LoopState) : List Nat :=
  (List.range stdin.length).filterMap (fun j =>
    if passSequences env collection_point stdin st j
    then some (runPrefix env collection_point stdin st (j + 1)).final.last_timestamp
    else none)

/-- The clock reading of the `n`-th call of `clock_gettime` (from 0): what
`timestamp_now` returns on it, 0 when the call fails. -/
def clockReading (env : Env) (n : Nat) : Nat :=
  (timestamp_now (env.clock_gettime n)).getD 0

/-- An environment whose clock reads 7 at the calls 0, 1 and 2 and 50 from
call 3 on; every send succeeds. -/
def skewClockEnv : Env :=
  ⟨8192, true, true, fun n => if n < 3 then some (0, 7) else some (0, 50), fun _ => 1⟩

/-- Five buffers as `fgets` fills them: a short line, a warning, the sample
record, a short line, the sample record. -/
def mixedInput : List CStr :=
  [shortLine, "WARN: flushing\n".toList, sampleLine ++ "\n".toList, shortLine,
    sampleLine ++ "\n".toList]

/-- An environment for examples: `BUFSIZ` is 8192, the setup succeeds, the
clock reads `tv_sec = 1`, `tv_nsec = n` at call `n`, and send `n` returns
`results[n]`, or 1 past the end of the list. -/
def exampleEnv (results : List Int) : Env :=
  ⟨8192, true, true, fun n => some (1, n), fun n => results.getD n 1⟩

/-! ## The timestamp sequencer -/

theorem U64_eq : U64 = 18446744073709551616 := by decide

/-- One sequencing step from a value below the top of the range gives a
strictly greater timestamp. -/
theorem lt_sequenceTimestamp (last now : Nat) (h : last < U64 - 1) :
    last < sequenceTimestamp last now := by
  have h1 : (last + 1) % U64 = last + 1 := Nat.mod_eq_of_lt (by omega)
  unfold sequenceTimestamp
  by_cases hlt : now < last
  · simp [hlt, h1]
  · by_cases heq : now = last
    · subst heq
      simp [h1]
    · simp only [hlt, heq, if_false]
      omega

/-- A clock reading that is not ahead of `last_timestamp` gives
`last_timestamp + 1`. -/
theorem sequenceTimestamp_of_le (last now : Nat) (hle : now ≤ last) (h : last + 1 < U64) :
    sequenceTimestamp last now = last + 1 := by
  have h1 : (last + 1) % U64 = last + 1 := Nat.mod_eq_of_lt h
  unfold sequenceTimestamp
  by_cases hlt : now < last
  · simp [hlt, h1]
  · have heq : now = last := by omega
    subst heq
    simp [h1]

/-- A clock reading ahead of `last_timestamp` is used as it is. -/
theorem sequenceTimestamp_of_gt (last now : Nat) (hgt : last < now) :
    sequenceTimestamp last now = now := by
  unfold sequenceTimestamp
  have h1 : ¬ now < last := by omega
  have h2 : ¬ now = last := by omega
  simp [h1, h2]

theorem sequenceRun_append (last : Nat) (xs ys : List Nat) :
    sequenceRun last (xs ++ ys)
      = sequenceRun last xs ++ sequenceRun ((sequenceRun last xs).getLastD last) ys := by
  induction xs generalizing last with
  | nil => simp [sequenceRun]
  | cons x xs ih =>
    rw [List.cons_append]
    simp only [sequenceRun, List.getLastD_cons, List.cons_append]
    rw [ih]

theorem getLastD_range' (K L : Nat) : (List.range' (L + 1) K).getLastD L = L + K := by
  induction K generalizing L with
  | zero => simp
  | succ K ih =>
    rw [List.range'_succ, List.getLastD_cons, ih]
    omega

/-- On the fold of the sequencing step: when neither the initial value nor
a timestamp it gives reaches `2 ^ 64 - 1`, the initial value followed by the
timestamps is strictly increasing from each entry to the next. -/
theorem sequenceRun_chain (last : Nat) (nows : List Nat)
    (htop : ∀ v ∈ last :: sequenceRun last nows, v < U64 - 1) :
    List.Chain' (fun a b => a < b) (last :: sequenceRun last nows) := by
  induction nows generalizing last with
  | nil => simp [sequenceRun]
  | cons now nows ih =>
    simp only [sequenceRun] at htop ⊢
    rw [List.chain'_cons]
    refine ⟨lt_sequenceTimestamp last now (htop last (by simp)), ih _ ?_⟩
    intro v hv
    exact htop v (List.mem_cons_of_mem _ hv)

theorem sequenceRun_stale (L : Nat) (nows : List Nat)
    (hstale : ∀ i, i < nows.length → nows.getD i 0 ≤ (L :: sequenceRun L nows).getD i 0)
    (hrange : L + nows.length < U64) :
    sequenceRun L nows = List.range' (L + 1) nows.length := by
  induction nows generalizing L with
  | nil => simp [sequenceRun]
  | cons now nows ih =>
    have h0 : now ≤ L := by simpa using hstale 0 (by simp)
    simp only [List.length_cons] at hrange
    have hstep : sequenceTimestamp L now = L + 1 :=
      sequenceTimestamp_of_le L now h0 (by omega)
    simp only [sequenceRun, hstep, List.length_cons, List.range'_succ]
    congr 1
    apply ih
    · intro i hi
      have := hstale (i + 1) (by simp; omega)
      simpa [sequenceRun, hstep] using this
    · omega

/-- On the fold of the sequencing step: `K` readings that are each at most
the value reached so far give `L + 1, ..., L + K`, and a further reading
above `L + K` is kept. -/
theorem sequenceRun_skew (L : Nat) (nows : List Nat)
    (hstale : ∀ i, i < nows.length → nows.getD i 0 ≤ (L :: sequenceRun L nows).getD i 0)
    (hrange : L + nows.length ≤ U64 - 1) :
    sequenceRun L nows = List.range' (L + 1) nows.length ∧
    ∀ now, L + nows.length < now →
      sequenceRun L (nows ++ [now]) = List.range' (L + 1) nows.length ++ [now] := by
  have hU : 0 < U64 := by decide
  have hrun := sequenceRun_stale L nows hstale (by omega)
  refine ⟨hrun, ?_⟩
  intro now hnow
  rw [sequenceRun_append, hrun, getLastD_range']
  simp [sequenceRun, sequenceTimestamp_of_gt _ _ hnow]

/-! ## The conversion `%s` and the tokens of a line -/

theorem tokens_cons_space (c : Char) (cs : CStr) (h : isspace c = true) :
    tokens (c :: cs) = tokens cs := by
  simp [tokens, h]

theorem tokens_cons_nonspace (c : Char) (cs : CStr) (h : isspace c = false) :
    tokens (c :: cs)
      = (c :: cs.takeWhile (fun x => !isspace x)) :: tokens (cs.dropWhile (fun x => !isspace x)) := by
  induction cs generalizing c with
  | nil => simp [tokens, h]
  | cons d cs ih =>
    by_cases hd : isspace d = true
    · simp [tokens, h, hd]
    · have hd1 : isspace d = false := by simpa using hd
      have hih := ih d hd1
      rw [tokens]
      simp [h, hd1, hih]

theorem tokens_of_dropWhile_nil (inp : CStr) (h : inp.dropWhile isspace = []) :
    tokens inp = [] := by
  induction inp with
  | nil => rfl
  | cons c cs ih =>
    by_cases hc : isspace c = true
    · rw [tokens_cons_space c cs hc]
      apply ih
      simpa [List.dropWhile_cons, hc] using h
    · simp [List.dropWhile_cons, hc] at h

theorem tokens_of_dropWhile_ne_nil (inp : CStr) (h : inp.dropWhile isspace ≠ []) :
    tokens inp = firstToken inp :: tokens (afterToken inp) := by
  induction inp with
  | nil => simp at h
  | cons c cs ih =>
    by_cases hc : isspace c = true
    · rw [tokens_cons_space c cs hc]
      have h1 : cs.dropWhile isspace ≠ [] := by simpa [List.dropWhile_cons, hc] using h
      rw [ih h1]
      simp [firstToken, afterToken, List.dropWhile_cons, hc]
    · have hc1 : isspace c = false := by simpa using hc
      rw [tokens_cons_nonspace c cs hc1]
      simp [firstToken, afterToken, List.dropWhile_cons, List.takeWhile_cons, hc1]

theorem dropWhile_nil_of_tokens_nil (inp : CStr) (h : tokens inp = []) :
    inp.dropWhile isspace = [] := by
  by_contra hne
  rw [tokens_of_dropWhile_ne_nil inp hne] at h
  exact List.cons_ne_nil _ _ h

theorem dropWhile_ne_nil_of_tokens_cons (inp : CStr) (t : CStr) (ts : List CStr)
    (h : tokens inp = t :: ts) : inp.dropWhile isspace ≠ [] := by
  intro hnil
  rw [tokens_of_dropWhile_nil inp hnil] at h
  exact List.cons_ne_nil _ _ h.symm

theorem tokens_cons_inv (inp : CStr) (t : CStr) (ts : List CStr) (h : tokens inp = t :: ts) :
    t = firstToken inp ∧ ts = tokens (afterToken inp) := by
  rw [tokens_of_dropWhile_ne_nil inp (dropWhile_ne_nil_of_tokens_cons inp t ts h)] at h
  simpa [eq_comm] using h

theorem scanStr_eq (inp : CStr) :
    scanStr inp = if inp.dropWhile isspace = [] then Scan.inputFailure
      else Scan.ok (firstToken inp) (afterToken inp) := by
  unfold scanStr firstToken afterToken
  cases h : inp.dropWhile isspace with
  | nil => simp
  | cons c r => simp

theorem scanStr_of_tokens_nil (inp : CStr) (h : tokens inp = []) :
    scanStr inp = Scan.inputFailure := by
  rw [scanStr_eq, if_pos (dropWhile_nil_of_tokens_nil inp h)]

theorem scanStr_of_tokens_cons (inp : CStr) (t : CStr) (ts : List CStr)
    (h : tokens inp = t :: ts) : scanStr inp = Scan.ok t (afterToken inp) := by
  rw [scanStr_eq, if_neg (dropWhile_ne_nil_of_tokens_cons inp t ts h), (tokens_cons_inv inp t ts h).1]

theorem tokens_afterToken (inp : CStr) : tokens (afterToken inp) = (tokens inp).tail := by
  cases h : tokens inp with
  | nil =>
    have h1 := dropWhile_nil_of_tokens_nil inp h
    simp [afterToken, h1, tokens]
  | cons t ts => simp [(tokens_cons_inv inp t ts h).2]

theorem tokens_iterate_afterToken (k : Nat) (inp : CStr) :
    tokens (afterToken^[k] inp) = (tokens inp).drop k := by
  induction k generalizing inp with
  | zero => simp
  | succ k ih =>
    rw [Function.iterate_succ_apply, ih, tokens_afterToken]
    simp [List.drop_succ_cons, List.tail_drop]

/-! ## `sscanf` on the record format -/

theorem drop_eq_getD_cons (ts : List CStr) (k : Nat) (h : k < ts.length) :
    ts.drop k = ts.getD k [] :: ts.drop (k + 1) := by
  rw [List.getD_eq_getElem ts [] h]
  exact List.drop_eq_getElem_cons h

theorem sscanf_skip_block (j : Nat) (fmt : List Conv) (inp : CStr) (out : List Arg) :
    sscanf (List.replicate j Conv.skipStr ++ fmt) inp out
      = if j ≤ (tokens inp).length then sscanf fmt (afterToken^[j] inp) out
        else (failureReturn true out, out) := by
  induction j generalizing inp with
  | zero => simp
  | succ j ih =>
    rw [List.replicate_succ, List.cons_append]
    cases h : tokens inp with
    | nil => simp [sscanf, scanStr_of_tokens_nil inp h]
    | cons t ts =>
      simp only [sscanf, scanStr_of_tokens_cons inp t ts h]
      rw [ih, tokens_afterToken, h]
      simp [Function.iterate_succ_apply]

theorem sscanf_skip_block_at (k j : Nat) (fmt : List Conv) (line : CStr) (out : List Arg)
    (h : k + j ≤ (tokens line).length) :
    sscanf (List.replicate j Conv.skipStr ++ fmt) (afterToken^[k] line) out
      = sscanf fmt (afterToken^[k + j] line) out := by
  rw [sscanf_skip_block, tokens_iterate_afterToken, List.length_drop, if_pos (by omega),
    Nat.add_comm k j, Function.iterate_add_apply]

theorem sscanf_skip_block_short (k j : Nat) (fmt : List Conv) (line : CStr) (out : List Arg)
    (hk : k ≤ (tokens line).length) (h : (tokens line).length < k + j) :
    sscanf (List.replicate j Conv.skipStr ++ fmt) (afterToken^[k] line) out
      = (failureReturn true out, out) := by
  rw [sscanf_skip_block, tokens_iterate_afterToken, List.length_drop, if_neg (by omega)]

theorem sscanf_alloc_at (k : Nat) (fmt : List Conv) (line : CStr) (out : List Arg)
    (h : k < (tokens line).length) :
    sscanf (Conv.allocStr :: fmt) (afterToken^[k] line) out
      = sscanf fmt (afterToken^[k + 1] line) (out ++ [Arg.str ((tokens line).getD k [])]) := by
  have htok : tokens (afterToken^[k] line)
      = (tokens line).getD k [] :: (tokens line).drop (k + 1) := by
    rw [tokens_iterate_afterToken, drop_eq_getD_cons _ _ h]
  simp only [sscanf, scanStr_of_tokens_cons _ _ _ htok]
  rw [Function.iterate_succ_apply']

theorem sscanf_alloc_short (k : Nat) (fmt : List Conv) (line : CStr) (out : List Arg)
    (h : (tokens line).length ≤ k) :
    sscanf (Conv.allocStr :: fmt) (afterToken^[k] line) out = (failureReturn true out, out) := by
  have htok : tokens (afterToken^[k] line) = [] := by
    rw [tokens_iterate_afterToken, List.drop_eq_nil_iff]
    exact h
  simp only [sscanf, scanStr_of_tokens_nil _ htok]

theorem recordFormat_eq :
    recordFormat = List.replicate 7 Conv.skipStr ++ (Conv.allocStr :: Conv.allocStr ::
      (List.replicate 7 Conv.skipStr ++ [Conv.ulong])) := by
  decide

/-- With 16 tokens or more, `sscanf` stores tokens 8 and 9 and reaches `%lu`
at the text that follows the 16th token. -/
theorem sscanf_record_of_long (line : CStr) (h : 16 ≤ (tokens line).length) :
    sscanf recordFormat line []
      = sscanf [Conv.ulong] (afterToken^[16] line)
          [Arg.str ((tokens line).getD 7 []), Arg.str ((tokens line).getD 8 [])] := by
  have h0 := sscanf_skip_block_at 0 7 (Conv.allocStr :: Conv.allocStr ::
      (List.replicate 7 Conv.skipStr ++ [Conv.ulong])) line [] (by omega)
  rw [Function.iterate_zero_apply] at h0
  rw [recordFormat_eq, h0, sscanf_alloc_at 7 _ line _ (by omega),
    sscanf_alloc_at 8 _ line _ (by omega), sscanf_skip_block_at 9 7 _ line _ (by omega)]
  rfl

/-- With fewer than 16 tokens, `sscanf` stops before `%lu` with at most two
assignments. -/
theorem sscanf_record_of_short (line : CStr) (h : (tokens line).length < 16) :
    (sscanf recordFormat line []).1 ≠ 3 ∧ (sscanf recordFormat line []).2.length < 3 := by
  by_cases h7 : (tokens line).length < 7
  · have h0 := sscanf_skip_block_short 0 7 (Conv.allocStr :: Conv.allocStr ::
      (List.replicate 7 Conv.skipStr ++ [Conv.ulong])) line [] (by omega) (by omega)
    rw [Function.iterate_zero_apply] at h0
    rw [recordFormat_eq, h0]
    simp [failureReturn]
  · have h0 := sscanf_skip_block_at 0 7 (Conv.allocStr :: Conv.allocStr ::
      (List.replicate 7 Conv.skipStr ++ [Conv.ulong])) line [] (by omega)
    rw [Function.iterate_zero_apply] at h0
    rw [recordFormat_eq, h0]
    by_cases h8 : (tokens line).length ≤ 7
    · rw [sscanf_alloc_short 7 _ line _ h8]
      simp [failureReturn]
    · rw [sscanf_alloc_at 7 _ line _ (by omega)]
      by_cases h9 : (tokens line).length ≤ 8
      · rw [sscanf_alloc_short 8 _ line _ h9]
        simp [failureReturn]
      · rw [sscanf_alloc_at 8 _ line _ (by omega),
          sscanf_skip_block_short 9 7 _ line _ (by omega) (by omega)]
        simp [failureReturn]

/-! ## The conversion `%lu` -/

theorem isdigit_false_of_isspace (c : Char) (h : isspace c = true) : isdigit c = false := by
  simp only [isspace, isdigit, Bool.or_eq_true, Bool.and_eq_true, decide_eq_true_eq] at h
  simp only [isdigit, Bool.and_eq_false_iff, decide_eq_false_iff_not]
  omega

theorem not_sign_of_isdigit (c : Char) (h : isdigit c = true) : ¬ (c = '-' ∨ c = '+') := by
  rintro (rfl | rfl) <;> simp [isdigit] at h

theorem takeWhile_isdigit_afterToken (inp : CStr) :
    (afterToken inp).takeWhile isdigit = [] := by
  cases h : afterToken inp with
  | nil => rfl
  | cons d r =>
    have hne : (inp.dropWhile isspace).dropWhile (fun x => !isspace x) ≠ [] := by
      intro hnil
      simp [afterToken, hnil] at h
    have hd := List.head_dropWhile_not (fun x => !isspace x) (inp.dropWhile isspace) hne
    have hd1 : isspace d = true := by
      have : ((inp.dropWhile isspace).dropWhile (fun x => !isspace x)).head hne = d := by
        simp only [afterToken] at h
        simp [h]
      rw [this] at hd
      simpa using hd
    simp [List.takeWhile_cons, isdigit_false_of_isspace d hd1]

theorem dropWhile_isspace_of_tokens_cons (inp : CStr) (t : CStr) (ts : List CStr)
    (h : tokens inp = t :: ts) : inp.dropWhile isspace = t ++ afterToken inp := by
  rw [(tokens_cons_inv inp t ts h).1]
  exact (List.takeWhile_append_dropWhile _ _).symm

theorem scanLu_of_dropWhile_cons (inp : CStr) (c : Char) (r : CStr)
    (h : inp.dropWhile isspace = c :: r) :
    scanLu inp
      = if (if c = '-' ∨ c = '+' then r else c :: r).takeWhile isdigit = []
        then Scan.matchingFailure
        else Scan.ok
          (strtoul (decide (c = '-')) ((if c = '-' ∨ c = '+' then r else c :: r).takeWhile isdigit))
          ((if c = '-' ∨ c = '+' then r else c :: r).dropWhile isdigit) := by
  unfold scanLu
  rw [h]
  simp only
  cases hb : (if c = '-' ∨ c = '+' then r else c :: r).takeWhile isdigit with
  | nil => simp
  | cons d ds => simp

theorem scanLu_of_tokens_nil (inp : CStr) (h : tokens inp = []) :
    scanLu inp = Scan.inputFailure := by
  unfold scanLu
  rw [dropWhile_nil_of_tokens_nil inp h]

theorem token_ne_nil (inp : CStr) (t : CStr) (ts : List CStr) (h : tokens inp = t :: ts) :
    t ≠ [] := by
  intro ht
  have hne := dropWhile_ne_nil_of_tokens_cons inp t ts h
  have h2 : firstToken inp = [] := by rw [← (tokens_cons_inv inp t ts h).1, ht]
  cases hd : inp.dropWhile isspace with
  | nil => exact hne hd
  | cons c r =>
    have hc := List.head_dropWhile_not isspace inp hne
    simp only [hd, List.head_cons] at hc
    simp [firstToken, hd, List.takeWhile_cons, hc] at h2

theorem dropWhile_isdigit_afterToken (inp : CStr) :
    (afterToken inp).dropWhile isdigit = afterToken inp := by
  have h1 := takeWhile_isdigit_afterToken inp
  cases ha : afterToken inp with
  | nil => rfl
  | cons d r =>
    rw [ha] at h1
    by_cases hd : isdigit d = true
    · simp [List.takeWhile_cons, hd] at h1
    · simp [List.dropWhile_cons, hd]

theorem takeWhile_isdigit_append_afterToken (inp u : CStr)
    (hu : ∀ c ∈ u.head?, isdigit c = false) :
    (u ++ afterToken inp).takeWhile isdigit = [] := by
  cases u with
  | nil => simpa using takeWhile_isdigit_afterToken inp
  | cons x u1 =>
    have hx : isdigit x = false := hu x (by simp)
    simp [List.takeWhile_cons, hx]

/-- On a token made of decimal digits `%lu` gives its `strtoul` value. -/
theorem scanLu_of_digits (inp : CStr) (t : CStr) (ts : List CStr) (h : tokens inp = t :: ts)
    (hdig : ∀ c ∈ t, isdigit c = true) :
    scanLu inp = Scan.ok (strtoul false t) (afterToken inp) := by
  have hdrop := dropWhile_isspace_of_tokens_cons inp t ts h
  cases ht : t with
  | nil => exact absurd ht (token_ne_nil inp t ts h)
  | cons c t1 =>
    subst ht
    have hc : isdigit c = true := hdig c (by simp)
    have hsign := not_sign_of_isdigit c hc
    have hminus : ¬ c = '-' := fun e => hsign (Or.inl e)
    rw [List.cons_append] at hdrop
    rw [scanLu_of_dropWhile_cons inp c _ hdrop, if_neg hsign]
    have htake : (c :: (t1 ++ afterToken inp)).takeWhile isdigit = c :: t1 := by
      rw [← List.cons_append, List.takeWhile_append_of_pos hdig, takeWhile_isdigit_afterToken,
        List.append_nil]
    have hdropd : (c :: (t1 ++ afterToken inp)).dropWhile isdigit = afterToken inp := by
      rw [← List.cons_append, List.dropWhile_append_of_pos hdig, dropWhile_isdigit_afterToken]
    rw [htake, hdropd]
    simp [hminus]

/-- On a token that, after an optional sign, does not start with a decimal
digit, `%lu` is a matching failure. -/
theorem scanLu_of_nonnumeric (inp : CStr) (t : CStr) (ts : List CStr)
    (h : tokens inp = t :: ts)
    (hu : ∀ c ∈ (stripSign t).head?, isdigit c = false) :
    scanLu inp = Scan.matchingFailure := by
  have hdrop := dropWhile_isspace_of_tokens_cons inp t ts h
  cases ht : t with
  | nil => exact absurd ht (token_ne_nil inp t ts h)
  | cons c t1 =>
    subst ht
    rw [List.cons_append] at hdrop
    rw [scanLu_of_dropWhile_cons inp c _ hdrop]
    by_cases hs : c = '-' ∨ c = '+'
    · simp only [stripSign, if_pos hs] at hu
      rw [if_pos hs, if_pos (takeWhile_isdigit_append_afterToken inp t1 hu)]
    · simp only [stripSign, if_neg hs] at hu
      have hc : isdigit c = false := hu c (by simp)
      rw [if_neg hs]
      simp [List.takeWhile_cons, hc]

/-! ## `parse_pmacct_record` -/

theorem parse_ret_eq (cs : CStr) :
    (parse_pmacct_record cs).ret = if (sscanf recordFormat cs []).1 = 3 then 1 else 0 := by
  unfold parse_pmacct_record
  simp only
  split <;> rfl

/-- On a line with at least 17 tokens whose 17th token is made of decimal
digits, the parser succeeds with tokens 8 and 9 and the `strtoul` value of
token 17. -/
theorem parse_of_digits (line : CStr) (hlen : 17 ≤ (tokens line).length)
    (hdig : ∀ c ∈ (tokens line).getD 16 [], isdigit c = true) :
    parse_pmacct_record line
      = ⟨1, some ((tokens line).getD 7 []), some ((tokens line).getD 8 []),
          some (strtoul false ((tokens line).getD 16 []))⟩ := by
  have htok : tokens (afterToken^[16] line)
      = (tokens line).getD 16 [] :: (tokens line).drop 17 := by
    rw [tokens_iterate_afterToken, drop_eq_getD_cons _ _ (by omega)]
  have hs : sscanf recordFormat line []
      = (3, [Arg.str ((tokens line).getD 7 []), Arg.str ((tokens line).getD 8 []),
          Arg.num (strtoul false ((tokens line).getD 16 []))]) := by
    rw [sscanf_record_of_long line (by omega)]
    simp only [sscanf, scanLu_of_digits _ _ _ htok hdig]
    rfl
  unfold parse_pmacct_record
  rw [hs]
  rfl

/-- With 16 tokens or more, when `%lu` does not succeed on the text after the
16th token, the parser returns 0. -/
theorem parse_ret_of_scanLu_failure (line : CStr) (hlen : 16 ≤ (tokens line).length)
    (hscan : scanLu (afterToken^[16] line) = Scan.inputFailure
      ∨ scanLu (afterToken^[16] line) = Scan.matchingFailure) :
    (parse_pmacct_record line).ret = 0 := by
  have h2 : (sscanf [Conv.ulong] (afterToken^[16] line)
      [Arg.str ((tokens line).getD 7 []), Arg.str ((tokens line).getD 8 [])]).1 = 2 := by
    rcases hscan with h | h <;> simp only [sscanf, h] <;> rfl
  rw [parse_ret_eq, sscanf_record_of_long line hlen, h2]
  rfl

/-- When the parser returns a value other than 0, that value is 1 and the two
pointers and `*bytes` are set: the loop of `main` reads them only then. -/
theorem parse_success_fields (cs : CStr) (h : (parse_pmacct_record cs).ret ≠ 0) :
    ∃ s d n, parse_pmacct_record cs = ⟨1, some s, some d, some n⟩ := by
  by_cases hlen : 16 ≤ (tokens cs).length
  · have hs := sscanf_record_of_long cs hlen
    cases hscan : scanLu (afterToken^[16] cs) with
    | inputFailure => exact absurd (parse_ret_of_scanLu_failure cs hlen (Or.inl hscan)) h
    | matchingFailure => exact absurd (parse_ret_of_scanLu_failure cs hlen (Or.inr hscan)) h
    | ok n rest =>
      refine ⟨(tokens cs).getD 7 [], (tokens cs).getD 8 [], n, ?_⟩
      have hs3 : sscanf recordFormat cs []
          = (3, [Arg.str ((tokens cs).getD 7 []), Arg.str ((tokens cs).getD 8 []), Arg.num n]) := by
        rw [hs]
        simp only [sscanf, hscan]
        rfl
      unfold parse_pmacct_record
      rw [hs3]
      rfl
  · have hshort := sscanf_record_of_short cs (by omega)
    have hret : (parse_pmacct_record cs).ret = 0 := by
      rw [parse_ret_eq, if_neg hshort.1]
    exact absurd hret h

/-- C3. Parser extraction: on every line of 17 white-space-separated tokens
(any white space between them, before them and after them) whose 17th token
is an unsigned decimal numeral of value at most `2 ^ 64 - 1`,
`parse_pmacct_record` returns 1, with token 8 as source IP, token 9 as
destination IP, both unchanged, and the value of token 17 as byte count. -/
theorem parse_pmacct_record_extracts (line : CStr)
    (hlen : (tokens line).length = 17)
    (hdig : ∀ c ∈ (tokens line).getD 16 [], isdigit c = true)
    (hval : decimalValue ((tokens line).getD 16 []) ≤ 2 ^ 64 - 1) :
    parse_pmacct_record line
      = ⟨1, some ((tokens line).getD 7 []), some ((tokens line).getD 8 []),
          some (decimalValue ((tokens line).getD 16 []))⟩ := by
  rw [parse_of_digits line (by omega) hdig]
  have hfit : ¬ ULONG_MAX < decimalValue ((tokens line).getD 16 []) := by
    simp only [ULONG_MAX]
    omega
  simp only [strtoul, if_neg hfit, Bool.false_eq_true, if_false]

theorem parse_pmacct_record_extracts_witness :
    (tokens sampleLine).length = 17 ∧
    (∀ c ∈ (tokens sampleLine).getD 16 [], isdigit c = true) ∧
    decimalValue ((tokens sampleLine).getD 16 []) ≤ 2 ^ 64 - 1 ∧
    parse_pmacct_record sampleLine
      = ⟨1, some "202.4.228.250".toList, some "180.76.5.15".toList, some 34954⟩ :=
  ⟨by decide, by decide, by decide,
    (parse_pmacct_record_extracts sampleLine (by decide) (by decide) (by decide)).trans
      (by decide)⟩

/-- C7. Short-line rejection: on every line with fewer than 16
white-space-separated tokens, the empty line and the lines of white space
included, `parse_pmacct_record` returns 0, and `sscanf` assigned fewer than
three fields. -/
theorem parse_pmacct_record_short_line (line : CStr) (h : (tokens line).length < 16) :
    (parse_pmacct_record line).ret = 0 ∧ (sscanf recordFormat line []).2.length < 3 := by
  have hs := sscanf_record_of_short line h
  refine ⟨?_, hs.2⟩
  rw [parse_ret_eq, if_neg hs.1]

theorem parse_pmacct_record_short_line_witness :
    (tokens shortLine).length < 16 ∧ (tokens []).length < 16 ∧
    (tokens " \t \n".toList).length < 16 ∧
    (parse_pmacct_record shortLine).ret = 0 ∧ (parse_pmacct_record []).ret = 0 ∧
    (parse_pmacct_record " \t \n".toList).ret = 0 :=
  ⟨by decide, by decide, by decide,
    (parse_pmacct_record_short_line shortLine (by decide)).1,
    (parse_pmacct_record_short_line [] (by decide)).1,
    (parse_pmacct_record_short_line " \t \n".toList (by decide)).1⟩

/-- C6, as the claim states it, fails: `overflowLine` has 17 tokens, its 17th
token is a decimal numeral of value `2 ^ 64`, which does not fit 64 bits, and
`parse_pmacct_record` returns 1 with byte count `2 ^ 64 - 1`. -/
theorem parse_pmacct_record_accepts_overflow :
    (tokens overflowLine).length = 17 ∧
    (∀ c ∈ (tokens overflowLine).getD 16 [], isdigit c = true) ∧
    2 ^ 64 - 1 < decimalValue ((tokens overflowLine).getD 16 []) ∧
    parse_pmacct_record overflowLine
      = ⟨1, some "10.0.0.1".toList, some "10.0.0.2".toList, some (2 ^ 64 - 1)⟩ := by
  decide

/-- C6, amended. Byte-count rejection: on every line whose first 16 tokens
are present and whose 17th token is absent or, after one optional leading
sign, does not start with a decimal digit, `parse_pmacct_record` returns 0. -/
theorem parse_pmacct_record_rejects_nonnumeric (line : CStr)
    (hlen : 16 ≤ (tokens line).length)
    (hnon : ∀ c ∈ (stripSign ((tokens line).getD 16 [])).head?, isdigit c = false) :
    (parse_pmacct_record line).ret = 0 := by
  apply parse_ret_of_scanLu_failure line hlen
  by_cases h17 : 17 ≤ (tokens line).length
  · right
    have htok : tokens (afterToken^[16] line)
        = (tokens line).getD 16 [] :: (tokens line).drop 17 := by
      rw [tokens_iterate_afterToken, drop_eq_getD_cons _ _ (by omega)]
    exact scanLu_of_nonnumeric _ _ _ htok hnon
  · left
    apply scanLu_of_tokens_nil
    rw [tokens_iterate_afterToken, List.drop_eq_nil_iff]
    omega

theorem parse_pmacct_record_rejects_nonnumeric_witness :
    16 ≤ (tokens textLine).length ∧
    (tokens textLine).getD 16 [] = "-bytes".toList ∧
    (∀ c ∈ (stripSign ((tokens textLine).getD 16 [])).head?, isdigit c = false) ∧
    (parse_pmacct_record textLine).ret = 0 :=
  ⟨by decide, by decide, by decide,
    parse_pmacct_record_rejects_nonnumeric textLine (by decide) (by decide)⟩

/-! ## One pass of the loop -/

theorem timestamp_now_eq_none (ts : Option (Int × Int)) :
    timestamp_now ts = none ↔ ts = none := by
  cases ts with
  | none => simp [timestamp_now]
  | some v => simp [timestamp_now]

/-- A line that the first-character test rejects leaves every variable as it
was: no clock read, no send. -/
theorem loop_body_of_notNumericId (env : Env) (cp buf : CStr) (st : LoopState)
    (hfilter : notNumericId buf = true) :
    loop_body env cp buf st = Pass.next st := by
  simp [loop_body, hfilter]

/-- A line that starts with a digit and that the parser rejects goes through
the sequencing step and sends nothing. -/
theorem loop_body_of_parse_failure (env : Env) (cp buf : CStr) (st : LoopState) (now : Nat)
    (hfilter : notNumericId buf = false)
    (hclock : timestamp_now (env.clock_gettime st.clockCalls) = some now)
    (hparse : (parse_pmacct_record (bufString env.BUFSIZ buf)).ret = 0) :
    loop_body env cp buf st
      = Pass.next ⟨sequenceTimestamp st.last_timestamp now, st.clockCalls + 1, st.sent⟩ := by
  simp [loop_body, hfilter, hclock, hparse]

/-- C2, as the claim states it, fails: `shortLine` starts with a digit and
`parse_pmacct_record` rejects it, yet the pass on it reads the clock and
moves `last_timestamp` from 5 to the clock reading 1000000000; nothing is
sent. -/
theorem loop_body_consumes_timestamp_on_rejected_line :
    notNumericId shortLine = false ∧
    (parse_pmacct_record (bufString (exampleEnv []).BUFSIZ shortLine)).ret = 0 ∧
    loop_body (exampleEnv []) "mel1".toList shortLine ⟨5, 0, []⟩
      = Pass.next ⟨1000000000, 1, []⟩ := by
  decide

/-- C2, amended. A line that the first-character test rejects consumes no
timestamp: the pass leaves `last_timestamp`, and every other variable,
unchanged. A line that starts with a decimal digit and that
`parse_pmacct_record` rejects does pass through the sequencing step:
`last_timestamp` becomes the sequenced timestamp, and nothing is sent. -/
theorem loop_body_on_non_record (env : Env) (cp buf : CStr) (st : LoopState) :
    (notNumericId buf = true → loop_body env cp buf st = Pass.next st) ∧
    (∀ now, notNumericId buf = false →
      timestamp_now (env.clock_gettime st.clockCalls) = some now →
      (parse_pmacct_record (bufString env.BUFSIZ buf)).ret = 0 →
      loop_body env cp buf st
        = Pass.next ⟨sequenceTimestamp st.last_timestamp now, st.clockCalls + 1, st.sent⟩) :=
  ⟨loop_body_of_notNumericId env cp buf st,
    fun now => loop_body_of_parse_failure env cp buf st now⟩

theorem loop_body_on_non_record_witness :
    notNumericId "WARN: flushing\n".toList = true ∧
    loop_body (exampleEnv []) "mel1".toList "WARN: flushing\n".toList ⟨5, 0, []⟩
      = Pass.next ⟨5, 0, []⟩ ∧
    notNumericId shortLine = false ∧
    timestamp_now ((exampleEnv []).clock_gettime 0) = some 1000000000 ∧
    (parse_pmacct_record (bufString (exampleEnv []).BUFSIZ shortLine)).ret = 0 ∧
    loop_body (exampleEnv []) "mel1".toList shortLine ⟨5, 0, []⟩
      = Pass.next ⟨sequenceTimestamp 5 1000000000, 0 + 1, []⟩ :=
  ⟨by decide,
    (loop_body_on_non_record (exampleEnv []) "mel1".toList "WARN: flushing\n".toList
      ⟨5, 0, []⟩).1 (by decide),
    by decide, by decide, by decide,
    (loop_body_on_non_record (exampleEnv []) "mel1".toList shortLine ⟨5, 0, []⟩).2
      1000000000 (by decide) (by decide) (by decide)⟩

/-- C5. Four observations per accepted record: for every line that passes the
first-character test and parses to `(src, dst, bytes)`, when the clock read
succeeds and the four sends return success, the pass makes exactly four
transport calls, in this order, all with the sequenced timestamp and the tag
`type = ip_traffic`: `as_send_int` with `field = tx_bytes`, `ip = src`, value
`bytes`; `as_send_int` with `field = rx_bytes`, `ip = dst`, value `bytes`;
`as_send_text` with `field = dest_ip`, `ip = src`, text `dst`; `as_send_text`
with `field = src_ip`, `ip = dst`, text `src`; then the loop goes on. -/
theorem loop_body_emits_four (env : Env) (cp buf : CStr) (st : LoopState) (now : Nat)
    (src dst : CStr) (bytes : Nat)
    (hfilter : notNumericId buf = false)
    (hclock : timestamp_now (env.clock_gettime st.clockCalls) = some now)
    (hparse : parse_pmacct_record (bufString env.BUFSIZ buf) = ⟨1, some src, some dst, some bytes⟩)
    (hsend : ∀ i, i < 4 → 0 < env.as_send (st.sent.length + i)) :
    loop_body env cp buf st
      = Pass.next ⟨sequenceTimestamp st.last_timestamp now, st.clockCalls + 1,
          st.sent ++
          [Frame.as_send_int ["type".toList, "collection_point".toList, "ip".toList, "field".toList]
              ["ip_traffic".toList, "syd1".toList, src, "tx_bytes".toList] 4 bytes
              (sequenceTimestamp st.last_timestamp now),
            Frame.as_send_int ["type".toList, "collection_point".toList, "ip".toList, "field".toList]
              ["ip_traffic".toList, "syd1".toList, dst, "rx_bytes".toList] 4 bytes
              (sequenceTimestamp st.last_timestamp now),
            Frame.as_send_text ["type".toList, "collection_point".toList, "ip".toList, "field".toList]
              ["ip_traffic".toList, "syd1".toList, src, "dest_ip".toList] 4 dst dst.length
              (sequenceTimestamp st.last_timestamp now),
            Frame.as_send_text ["type".toList, "collection_point".toList, "ip".toList, "field".toList]
              ["ip_traffic".toList, "syd1".toList, dst, "src_ip".toList] 4 src src.length
              (sequenceTimestamp st.last_timestamp now)]⟩ := by
  have h0 : ¬ env.as_send st.sent.length ≤ 0 := not_le.mpr (by simpa using hsend 0 (by omega))
  have h1 : ¬ env.as_send (st.sent.length + 1) ≤ 0 := not_le.mpr (hsend 1 (by omega))
  have h2 : ¬ env.as_send (st.sent.length + 2) ≤ 0 := not_le.mpr (hsend 2 (by omega))
  have h3 : ¬ env.as_send (st.sent.length + 3) ≤ 0 := not_le.mpr (hsend 3 (by omega))
  simp [loop_body, hfilter, hclock, hparse, h0, h1, h2, h3,
    emit_tx_bytes, emit_rx_bytes, emit_dest_ip, emit_src_ip, source_fields]

theorem loop_body_emits_four_witness :
    notNumericId sampleLine = false ∧
    timestamp_now ((exampleEnv []).clock_gettime 0) = some 1000000000 ∧
    parse_pmacct_record (bufString (exampleEnv []).BUFSIZ sampleLine)
      = ⟨1, some "202.4.228.250".toList, some "180.76.5.15".toList, some 34954⟩ ∧
    (∀ i, i < 4 → 0 < (exampleEnv []).as_send (([] : List Frame).length + i)) ∧
    loop_body (exampleEnv []) "mel1".toList sampleLine ⟨5, 0, []⟩
      = Pass.next ⟨sequenceTimestamp 5 1000000000, 0 + 1,
          [] ++
          [Frame.as_send_int ["type".toList, "collection_point".toList, "ip".toList, "field".toList]
              ["ip_traffic".toList, "syd1".toList, "202.4.228.250".toList, "tx_bytes".toList]
              4 34954 (sequenceTimestamp 5 1000000000),
            Frame.as_send_int ["type".toList, "collection_point".toList, "ip".toList, "field".toList]
              ["ip_traffic".toList, "syd1".toList, "180.76.5.15".toList, "rx_bytes".toList]
              4 34954 (sequenceTimestamp 5 1000000000),
            Frame.as_send_text ["type".toList, "collection_point".toList, "ip".toList, "field".toList]
              ["ip_traffic".toList, "syd1".toList, "202.4.228.250".toList, "dest_ip".toList]
              4 "180.76.5.15".toList "180.76.5.15".toList.length (sequenceTimestamp 5 1000000000),
            Frame.as_send_text ["type".toList, "collection_point".toList, "ip".toList, "field".toList]
              ["ip_traffic".toList, "syd1".toList, "180.76.5.15".toList, "src_ip".toList]
              4 "202.4.228.250".toList "202.4.228.250".toList.length
              (sequenceTimestamp 5 1000000000)]⟩ :=
  ⟨by decide, by decide, by decide, by decide,
    loop_body_emits_four (exampleEnv []) "mel1".toList sampleLine ⟨5, 0, []⟩ 1000000000
      "202.4.228.250".toList "180.76.5.15".toList 34954
      (by decide) (by decide) (by decide) (by decide)⟩

/-! ## The loop and the exit status -/

theorem SendsOk_append (env : Env) (sent : List Frame) (f : Frame) (h : SendsOk env sent)
    (hf : ¬ env.as_send sent.length ≤ 0) : SendsOk env (sent ++ [f]) := by
  intro i hi
  simp only [List.length_append, List.length_singleton] at hi
  by_cases hlt : i < sent.length
  · exact h i hlt
  · have : i = sent.length := by omega
    subst this
    exact not_le.mp hf

theorem LastSendFailed_append (env : Env) (sent : List Frame) (f : Frame) (h : SendsOk env sent)
    (hf : env.as_send sent.length ≤ 0) : LastSendFailed env (sent ++ [f]) :=
  ⟨sent.length, by simp, h, hf⟩

theorem ClocksOk_succ (env : Env) (calls : Nat) (h : ClocksOk env calls)
    (hc : env.clock_gettime calls ≠ none) : ClocksOk env (calls + 1) := by
  intro n hn
  by_cases hlt : n < calls
  · exact h n hlt
  · have : n = calls := by omega
    subst this
    exact hc

/-- One pass keeps the relation between the way it ends and the results of
the calls made. -/
theorem loop_body_inv (env : Env) (cp buf : CStr) (st : LoopState)
    (hs : SendsOk env st.sent) (hc : ClocksOk env st.clockCalls) :
    PassInv env (loop_body env cp buf st) := by
  unfold loop_body
  by_cases hf : notNumericId buf = true
  · rw [if_pos hf]
    exact ⟨hs, hc⟩
  · rw [if_neg hf]
    cases hclk : timestamp_now (env.clock_gettime st.clockCalls) with
    | none =>
      exact ⟨rfl, hs, st.clockCalls, rfl, hc, (timestamp_now_eq_none _).mp hclk⟩
    | some now =>
      have hc1 : ClocksOk env (st.clockCalls + 1) := by
        apply ClocksOk_succ env _ hc
        intro hnone
        rw [hnone] at hclk
        simp [timestamp_now] at hclk
      simp only
      by_cases hp : (parse_pmacct_record (bufString env.BUFSIZ buf)).ret = 0
      · rw [if_pos hp]
        exact ⟨hs, hc1⟩
      · rw [if_neg hp]
        by_cases h1 : env.as_send st.sent.length ≤ 0
        · rw [if_pos h1]
          exact ⟨rfl, LastSendFailed_append env _ _ hs h1, hc1⟩
        · rw [if_neg h1]
          have hs1 := SendsOk_append env _
            (emit_tx_bytes cp ((parse_pmacct_record (bufString env.BUFSIZ buf)).source_ip.getD [])
              (sequenceTimestamp st.last_timestamp now)
              ((parse_pmacct_record (bufString env.BUFSIZ buf)).bytes.getD 0)) hs h1
          split
          · rename_i h2
            exact ⟨rfl, LastSendFailed_append env _ _ hs1 h2, hc1⟩
          · rename_i h2
            have hs2 := SendsOk_append env _
              (emit_rx_bytes cp ((parse_pmacct_record (bufString env.BUFSIZ buf)).dest_ip.getD [])
                (sequenceTimestamp st.last_timestamp now)
                ((parse_pmacct_record (bufString env.BUFSIZ buf)).bytes.getD 0)) hs1 h2
            split
            · rename_i h3
              exact ⟨rfl, LastSendFailed_append env _ _ hs2 h3, hc1⟩
            · rename_i h3
              have hs3 := SendsOk_append env _
                (emit_dest_ip cp
                  ((parse_pmacct_record (bufString env.BUFSIZ buf)).source_ip.getD [])
                  (sequenceTimestamp st.last_timestamp now)
                  ((parse_pmacct_record (bufString env.BUFSIZ buf)).dest_ip.getD [])) hs2 h3
              split
              · rename_i h4
                exact ⟨rfl, LastSendFailed_append env _ _ hs3 h4, hc1⟩
              · rename_i h4
                exact ⟨SendsOk_append env _ _ hs3 h4, hc1⟩

/-- The loop ends with status 0, with status 1 right after a failed send, or
with status 2 right after a failed clock read. -/
theorem main_loop_inv (env : Env) (cp : CStr) (stdin : List CStr) (st : LoopState)
    (hs : SendsOk env st.sent) (hc : ClocksOk env st.clockCalls) :
    RunInv env (main_loop env cp stdin st) := by
  induction stdin generalizing st with
  | nil => exact Or.inl ⟨rfl, hs, hc⟩
  | cons buf rest ih =>
    have hinv := loop_body_inv env cp buf st hs hc
    unfold main_loop
    cases hb : loop_body env cp buf st with
    | next st1 =>
      rw [hb] at hinv
      exact ih st1 hinv.1 hinv.2
    | stop retcode st1 =>
      rw [hb] at hinv
      exact Or.inr (Or.inl ⟨hinv.1, hinv.2.1, hinv.2.2⟩)
    | exit code st1 =>
      rw [hb] at hinv
      exact Or.inr (Or.inr ⟨hinv.1, hinv.2.1, hinv.2.2⟩)

/-- A run of `main` either ends before the loop with status 1 and no call
made (bad usage or failed setup), or satisfies the relation of the loop. -/
theorem main_inv (env : Env) (argv : List CStr) (stdin : List CStr) :
    RunInv env (main env argv stdin) ∨
    ((main env argv stdin).status = 1 ∧ (main env argv stdin).final.sent = [] ∧
      (main env argv stdin).final.clockCalls = 0 ∧
      (argv.length < 3 ∨ env.as_consumer_new = false ∨ env.as_connect = false)) := by
  unfold main
  by_cases ha : argv.length < 3
  · rw [if_pos ha]
    exact Or.inr ⟨rfl, rfl, rfl, Or.inl ha⟩
  · rw [if_neg ha]
    simp only
    cases hcons : env.as_consumer_new with
    | false => exact Or.inr ⟨rfl, rfl, rfl, Or.inr (Or.inl rfl)⟩
    | true =>
      cases hconn : env.as_connect with
      | false => exact Or.inr ⟨rfl, rfl, rfl, Or.inr (Or.inr rfl)⟩
      | true =>
        simp only [Bool.not_true, Bool.false_eq_true, if_false]
        cases hclk : timestamp_now (env.clock_gettime 0) with
        | none =>
          refine Or.inl (Or.inr (Or.inr ⟨rfl, ?_, 0, rfl, ?_, (timestamp_now_eq_none _).mp hclk⟩))
          · intro i hi
            simp at hi
          · intro n hn
            omega
        | some now =>
          refine Or.inl (main_loop_inv env _ stdin _ ?_ ?_)
          · intro i hi
            simp at hi
          · intro n hn
            have : n = 0 := by
              simp only at hn
              omega
            subst this
            intro hnone
            rw [hnone] at hclk
            simp [timestamp_now] at hclk

/-- C8. A transport send failure is fatal to the run: for every command
line, input and results of the clock and of the transport, when the `i`-th
transport call of the run returns a failure (a value of 0 or less), that call
is the last one the run makes (no other send of that record, none for a later
line), and the exit status is not 0. -/
theorem main_send_failure_is_fatal (env : Env) (argv : List CStr) (stdin : List CStr) (i : Nat)
    (hi : i < (main env argv stdin).final.sent.length) (hfail : env.as_send i ≤ 0) :
    (main env argv stdin).final.sent.length = i + 1 ∧ (main env argv stdin).status ≠ 0 := by
  rcases main_inv env argv stdin with (⟨_, hs, _⟩ | ⟨h1, ⟨k, hk, hbefore, _⟩, _⟩ | ⟨_, hs, _⟩) | ⟨_, hnil, _⟩
  · exact absurd hfail (not_le.mpr (hs i hi))
  · have hik : i = k := by
      by_contra hne
      have hlt : i < k := by omega
      exact absurd hfail (not_le.mpr (hbefore i hlt))
    subst hik
    refine ⟨hk, ?_⟩
    rw [h1]
    decide
  · exact absurd hfail (not_le.mpr (hs i hi))
  · rw [hnil] at hi
    simp at hi

theorem main_send_failure_is_fatal_witness :
    1 < (main (exampleEnv [1, 0]) exampleArgv [sampleLine, sampleLine]).final.sent.length ∧
    (exampleEnv [1, 0]).as_send 1 ≤ 0 ∧
    (main (exampleEnv [1, 0]) exampleArgv [sampleLine, sampleLine]).final.sent.length = 1 + 1 ∧
    (main (exampleEnv [1, 0]) exampleArgv [sampleLine, sampleLine]).status ≠ 0 :=
  ⟨by decide, by decide,
    main_send_failure_is_fatal (exampleEnv [1, 0]) exampleArgv [sampleLine, sampleLine] 1
      (by decide) (by decide)⟩

/-- C9, as the claim states it, fails: a run with one argument (bad usage) and
a run whose first send fails both end with exit status 1. -/
theorem usage_and_send_failure_share_status :
    ["pmacct2vault".toList, "mel1".toList].length < 3 ∧
    (main (exampleEnv []) ["pmacct2vault".toList, "mel1".toList] [sampleLine]).status = 1 ∧
    (main (exampleEnv [0]) exampleArgv [sampleLine]).final.sent.length = 1 ∧
    (exampleEnv [0]).as_send 0 ≤ 0 ∧
    (main (exampleEnv [0]) exampleArgv [sampleLine]).status = 1 := by
  decide

/-- C9, amended. The exit status is 0 when the command line has two
arguments, the setup succeeds, and no clock read and no send fails, so that
standard input is read to its end. It is 1 for bad usage and also 1 when a
send made by the run failed: these two are not told apart. It is 2 when a
clock read made by the run failed, which differs from both. -/
theorem main_exit_status (env : Env) (argv : List CStr) (stdin : List CStr) :
    (3 ≤ argv.length → env.as_consumer_new = true → env.as_connect = true →
      (∀ n, env.clock_gettime n ≠ none) → (∀ i, 0 < env.as_send i) →
      (main env argv stdin).status = 0) ∧
    (argv.length < 3 → (main env argv stdin).status = 1) ∧
    ((∃ i, i < (main env argv stdin).final.sent.length ∧ env.as_send i ≤ 0) →
      (main env argv stdin).status = 1) ∧
    ((∃ n, n < (main env argv stdin).final.clockCalls ∧ env.clock_gettime n = none) →
      (main env argv stdin).status = 2) := by
  refine ⟨?_, ?_, ?_, ?_⟩
  · intro hargs hcons hconn hclock hsend
    rcases main_inv env argv stdin with (⟨h0, _, _⟩ | ⟨_, ⟨k, _, _, hk⟩, _⟩ | ⟨_, _, ⟨k, _, _, hk⟩⟩) | ⟨_, _, _, hpre⟩
    · exact h0
    · exact absurd hk (not_le.mpr (hsend k))
    · exact absurd hk (hclock k)
    · rcases hpre with h | h | h
      · omega
      · rw [hcons] at h
        exact absurd h (by decide)
      · rw [hconn] at h
        exact absurd h (by decide)
  · intro hargs
    unfold main
    rw [if_pos hargs]
  · rintro ⟨i, hi, hfail⟩
    rcases main_inv env argv stdin with (⟨_, hs, _⟩ | ⟨h1, _, _⟩ | ⟨_, hs, _⟩) | ⟨h1, _, _⟩
    · exact absurd hfail (not_le.mpr (hs i hi))
    · exact h1
    · exact absurd hfail (not_le.mpr (hs i hi))
    · exact h1
  · rintro ⟨n, hn, hnone⟩
    rcases main_inv env argv stdin with (⟨_, _, hc⟩ | ⟨_, _, hc⟩ | ⟨h2, _, _⟩) | ⟨_, _, hzero, _⟩
    · exact absurd hnone (hc n hn)
    · exact absurd hnone (hc n hn)
    · exact h2
    · omega

theorem main_exit_status_witness :
    (main (exampleEnv []) exampleArgv [sampleLine, shortLine]).status = 0 ∧
    (main (exampleEnv []) ["pmacct2vault".toList] [sampleLine]).status = 1 ∧
    (main (exampleEnv [1, 1, 0]) exampleArgv [sampleLine]).status = 1 ∧
    (main brokenClockEnv exampleArgv [sampleLine]).status = 2 :=
  ⟨(main_exit_status (exampleEnv []) exampleArgv [sampleLine, shortLine]).1
      (by decide) rfl rfl (fun n => by simp [exampleEnv]) (fun i => by simp [exampleEnv]),
    (main_exit_status (exampleEnv []) ["pmacct2vault".toList] [sampleLine]).2.1 (by decide),
    (main_exit_status (exampleEnv [1, 1, 0]) exampleArgv [sampleLine]).2.2.1
      ⟨2, by decide, by decide⟩,
    (main_exit_status brokenClockEnv exampleArgv [sampleLine]).2.2.2
      ⟨1, by decide, by decide⟩⟩

/-- C4 does not hold of the code: each of the four emit functions sets the
tag `collection_point` to `syd1` whatever label it is given, and the run with
the label `mel1` on the sample record makes four transport calls that all
carry `collection_point = syd1`, not `mel1`. -/
theorem collection_point_is_always_syd1 :
    (∀ cp ip t bytes,
      (emit_tx_bytes cp ip t bytes).tag "collection_point".toList = some "syd1".toList) ∧
    (∀ cp ip t bytes,
      (emit_rx_bytes cp ip t bytes).tag "collection_point".toList = some "syd1".toList) ∧
    (∀ cp ip t dest_ip,
      (emit_dest_ip cp ip t dest_ip).tag "collection_point".toList = some "syd1".toList) ∧
    (∀ cp ip t src_ip,
      (emit_src_ip cp ip t src_ip).tag "collection_point".toList = some "syd1".toList) ∧
    exampleArgv.getD 1 [] = "mel1".toList ∧
    (main (exampleEnv []) exampleArgv [sampleLine]).status = 0 ∧
    (main (exampleEnv []) exampleArgv [sampleLine]).final.sent.length = 4 ∧
    (∀ f ∈ (main (exampleEnv []) exampleArgv [sampleLine]).final.sent,
      f.tag "collection_point".toList = some "syd1".toList ∧
      f.tag "collection_point".toList ≠ some "mel1".toList) :=
  ⟨fun _ _ _ _ => rfl, fun _ _ _ _ => rfl, fun _ _ _ _ => rfl, fun _ _ _ _ => rfl,
    by decide, by decide, by decide, by decide⟩

/-! ## The timestamps assigned by the loop of `main` -/

theorem loop_body_of_clock_failure (env : Env) (cp buf : CStr) (st : LoopState)
    (hfilter : notNumericId buf = false) (hclock : env.clock_gettime st.clockCalls = none) :
    loop_body env cp buf st
      = Pass.exit clockExitStatus { st with clockCalls := st.clockCalls + 1 } := by
  simp [loop_body, hfilter, hclock, timestamp_now]

/-- A pass that reads the clock ends with `continue`, the end of the body or
`break`, and leaves the sequenced timestamp in `last_timestamp`. -/
theorem loop_body_of_clock_reading (env : Env) (cp buf : CStr) (st : LoopState) (now : Nat)
    (hfilter : notNumericId buf = false)
    (hclock : timestamp_now (env.clock_gettime st.clockCalls) = some now) :
    ∃ s, (loop_body env cp buf st = Pass.next s ∨ loop_body env cp buf st = Pass.stop 1 s) ∧
      s.last_timestamp = sequenceTimestamp st.last_timestamp now ∧
      s.clockCalls = st.clockCalls + 1 := by
  unfold loop_body
  rw [if_neg (by simp [hfilter]), hclock]
  simp only
  split
  · exact ⟨_, Or.inl rfl, rfl, rfl⟩
  · split
    · exact ⟨_, Or.inr rfl, rfl, rfl⟩
    · split
      · exact ⟨_, Or.inr rfl, rfl, rfl⟩
      · split
        · exact ⟨_, Or.inr rfl, rfl, rfl⟩
        · split
          · exact ⟨_, Or.inr rfl, rfl, rfl⟩
          · exact ⟨_, Or.inl rfl, rfl, rfl⟩

theorem runPrefix_zero (env : Env) (cp : CStr) (stdin : List CStr) (st : LoopState) :
    runPrefix env cp stdin st 0 = ⟨0, st⟩ := by
  simp [runPrefix, main_loop]

theorem runPrefix_succ_of_next (env : Env) (cp buf : CStr) (rest : List CStr)
    (st st1 : LoopState) (k : Nat) (h : loop_body env cp buf st = Pass.next st1) :
    runPrefix env cp (buf :: rest) st (k + 1) = runPrefix env cp rest st1 k := by
  simp [runPrefix, main_loop, h]

theorem runPrefix_succ_of_stop (env : Env) (cp buf : CStr) (rest : List CStr)
    (st s : LoopState) (retcode : Int) (k : Nat)
    (h : loop_body env cp buf st = Pass.stop retcode s) :
    runPrefix env cp (buf :: rest) st (k + 1) = ⟨retcode, s⟩ := by
  simp [runPrefix, main_loop, h]

theorem runPrefix_succ_of_exit (env : Env) (cp buf : CStr) (rest : List CStr)
    (st s : LoopState) (code : Int) (k : Nat)
    (h : loop_body env cp buf st = Pass.exit code s) :
    runPrefix env cp (buf :: rest) st (k + 1) = ⟨code, s⟩ := by
  simp [runPrefix, main_loop, h]

theorem assignedTimestamps_cons (env : Env) (cp buf : CStr) (rest : List CStr)
    (st : LoopState) :
    assignedTimestamps env cp (buf :: rest) st
      = (if passSequences env cp (buf :: rest) st 0
          then [(runPrefix env cp (buf :: rest) st 1).final.last_timestamp] else [])
        ++ (List.range rest.length).filterMap (fun j =>
            if passSequences env cp (buf :: rest) st (j + 1)
            then some (runPrefix env cp (buf :: rest) st (j + 1 + 1)).final.last_timestamp
            else none) := by
  unfold assignedTimestamps
  rw [List.length_cons, List.range_succ_eq_map, List.filterMap_cons, List.filterMap_map]
  by_cases h0 : passSequences env cp (buf :: rest) st 0 = true
  · simp only [h0, if_true, List.singleton_append]
    rfl
  · simp only [h0, if_false, List.nil_append, Bool.false_eq_true]
    rfl

theorem passSequences_zero (env : Env) (cp buf : CStr) (rest : List CStr) (st : LoopState) :
    passSequences env cp (buf :: rest) st 0
      = (!notNumericId buf && (env.clock_gettime st.clockCalls).isSome) := by
  simp [passSequences, runPrefix_zero]

/-- After a pass that goes on, the rest of the loop assigns what it assigns
from the state the pass left. -/
theorem assignedTimestamps_of_next (env : Env) (cp buf : CStr) (rest : List CStr)
    (st st1 : LoopState) (h : loop_body env cp buf st = Pass.next st1) :
    assignedTimestamps env cp (buf :: rest) st
      = (if (!notNumericId buf && (env.clock_gettime st.clockCalls).isSome) = true
          then [st1.last_timestamp] else [])
        ++ assignedTimestamps env cp rest st1 := by
  rw [assignedTimestamps_cons, passSequences_zero]
  have h1 : (runPrefix env cp (buf :: rest) st 1).final = st1 := by
    rw [runPrefix_succ_of_next env cp buf rest st st1 0 h, runPrefix_zero]
  rw [h1]
  congr 1
  unfold assignedTimestamps
  apply List.filterMap_congr
  intro j _
  have hp : passSequences env cp (buf :: rest) st (j + 1) = passSequences env cp rest st1 j := by
    simp only [passSequences, runPrefix_succ_of_next env cp buf rest st st1 j h,
      List.getD_cons_succ]
  rw [hp, runPrefix_succ_of_next env cp buf rest st st1 (j + 1) h]

/-- After a pass that ends the loop with a status other than 0, no later
pass assigns a timestamp. -/
theorem assignedTimestamps_of_end (env : Env) (cp buf : CStr) (rest : List CStr)
    (st s : LoopState) (code : Int) (hcode : code ≠ 0)
    (h : loop_body env cp buf st = Pass.stop code s ∨ loop_body env cp buf st = Pass.exit code s) :
    assignedTimestamps env cp (buf :: rest) st
      = if (!notNumericId buf && (env.clock_gettime st.clockCalls).isSome) = true
          then [s.last_timestamp] else [] := by
  have hrun : ∀ k, runPrefix env cp (buf :: rest) st (k + 1) = ⟨code, s⟩ := by
    intro k
    rcases h with h | h
    · exact runPrefix_succ_of_stop env cp buf rest st s code k h
    · exact runPrefix_succ_of_exit env cp buf rest st s code k h
  rw [assignedTimestamps_cons, passSequences_zero, hrun 0]
  have hnone : (List.range rest.length).filterMap (fun j =>
      if passSequences env cp (buf :: rest) st (j + 1)
      then some (runPrefix env cp (buf :: rest) st (j + 1 + 1)).final.last_timestamp
      else none) = [] := by
    rw [List.filterMap_eq_nil_iff]
    intro j _
    have hp : passSequences env cp (buf :: rest) st (j + 1) = false := by
      simp [passSequences, hrun j, hcode]
    simp [hp]
  rw [hnone, List.append_nil]

theorem sequenceRun_length (last : Nat) (nows : List Nat) :
    (sequenceRun last nows).length = nows.length := by
  induction nows generalizing last with
  | nil => rfl
  | cons now nows ih => simp [sequenceRun, ih]

theorem sequenceRun_take (last : Nat) (nows : List Nat) (K : Nat) :
    (sequenceRun last nows).take K = sequenceRun last (nows.take K) := by
  induction nows generalizing last K with
  | nil => simp [sequenceRun]
  | cons now nows ih =>
    cases K with
    | zero => simp [sequenceRun]
    | succ K => simp [sequenceRun, ih]

theorem timestamp_now_of_some (env : Env) (n : Nat) (v : Int × Int)
    (h : env.clock_gettime n = some v) :
    timestamp_now (env.clock_gettime n) = some (clockReading env n) := by
  simp [clockReading, h, timestamp_now]

theorem readings_succ (env : Env) (c m : Nat) :
    (List.range (m + 1)).map (fun i => clockReading env (c + i))
      = clockReading env c :: (List.range m).map (fun i => clockReading env (c + 1 + i)) := by
  rw [List.range_succ_eq_map, List.map_cons, List.map_map]
  congr 1
  apply List.map_congr_left
  intro i _
  simp only [Function.comp, Nat.succ_eq_add_one]
  congr 1
  omega

/-- The loop of `main` carries `last_timestamp` from pass to pass: the
timestamps its passes assign are those of the sequencing step run from the
initial `last_timestamp` on the readings of the successive clock calls. -/
theorem assignedTimestamps_eq_sequenceRun (env : Env) (cp : CStr) (stdin : List CStr)
    (st : LoopState) :
    ∃ m, assignedTimestamps env cp stdin st
      = sequenceRun st.last_timestamp
          ((List.range m).map (fun i => clockReading env (st.clockCalls + i))) := by
  induction stdin generalizing st with
  | nil => exact ⟨0, rfl⟩
  | cons buf rest ih =>
    by_cases hf : notNumericId buf = true
    · obtain ⟨m, hm⟩ := ih st
      refine ⟨m, ?_⟩
      rw [assignedTimestamps_of_next env cp buf rest st st
        (loop_body_of_notNumericId env cp buf st hf), ← hm]
      simp [hf]
    · have hf1 : notNumericId buf = false := by simpa using hf
      cases hc : env.clock_gettime st.clockCalls with
      | none =>
        refine ⟨0, ?_⟩
        rw [assignedTimestamps_of_end env cp buf rest st _ clockExitStatus (by decide)
          (Or.inr (loop_body_of_clock_failure env cp buf st hf1 hc))]
        simp [hc, sequenceRun]
      | some v =>
        have hnow := timestamp_now_of_some env st.clockCalls v hc
        obtain ⟨s, hs, hlast, hcalls⟩ :=
          loop_body_of_clock_reading env cp buf st _ hf1 hnow
        rcases hs with hs | hs
        · obtain ⟨m, hm⟩ := ih s
          refine ⟨m + 1, ?_⟩
          rw [assignedTimestamps_of_next env cp buf rest st s hs, hm, readings_succ,
            hcalls, hlast]
          simp [hf1, hc, sequenceRun]
        · refine ⟨1, ?_⟩
          rw [assignedTimestamps_of_end env cp buf rest st s 1 (by decide) (Or.inl hs), hlast]
          simp [hf1, hc, sequenceRun]

theorem getD_cons_take (L : Nat) (xs : List Nat) (K i : Nat) (h : i ≤ K) :
    (L :: xs.take K).getD i 0 = (L :: xs).getD i 0 := by
  cases i with
  | zero => rfl
  | succ i =>
    have hlt : i < K := by omega
    simp only [List.getD_eq_getElem?_getD, List.getElem?_cons_succ,
      List.getElem?_take_of_lt hlt]

theorem take_readings (f : Nat → Nat) (m K : Nat) (hK : K ≤ m) :
    ((List.range m).map f).take K = (List.range K).map f := by
  rw [← List.map_take, List.take_range, Nat.min_eq_left hK]

/-- On the readings `f 0, f 1, ...` of the successive clock calls: the first
`K` timestamps are `L + 1, ..., L + K` when each of these readings is at most
the value reached so far, and timestamp `K` is the reading `f K` when that
reading is above `L + K`. -/
theorem sequenceRun_readings_skew (f : Nat → Nat) (L m K : Nat) (hK : K ≤ m)
    (hstale : ∀ i, i < K → f i ≤ (L :: sequenceRun L ((List.range m).map f)).getD i 0)
    (hrange : L + K ≤ U64 - 1) :
    (sequenceRun L ((List.range m).map f)).take K = List.range' (L + 1) K ∧
    (K < m → L + K < f K → (sequenceRun L ((List.range m).map f)).getD K 0 = f K) := by
  have hlen : ((List.range K).map f).length = K := by simp
  have hstale1 : ∀ i, i < ((List.range K).map f).length →
      ((List.range K).map f).getD i 0
        ≤ (L :: sequenceRun L ((List.range K).map f)).getD i 0 := by
    intro i hi
    rw [hlen] at hi
    rw [← take_readings f m K hK, ← sequenceRun_take, getD_cons_take L _ K i (by omega),
      take_readings f m K hK]
    have hfi : ((List.range K).map f).getD i 0 = f i := by
      simp [List.getD_eq_getElem?_getD, hi]
    rw [hfi]
    exact hstale i hi
  have hskew := sequenceRun_skew L ((List.range K).map f) hstale1 (by rw [hlen]; exact hrange)
  rw [hlen] at hskew
  refine ⟨?_, ?_⟩
  · rw [sequenceRun_take, take_readings f m K hK]
    exact hskew.1
  · intro hKm hnow
    have htake : (sequenceRun L ((List.range m).map f)).take (K + 1)
        = List.range' (L + 1) K ++ [f K] := by
      rw [sequenceRun_take, take_readings f m (K + 1) (by omega), List.range_succ,
        List.map_append, List.map_singleton]
      exact hskew.2 (f K) hnow
    have hget : (sequenceRun L ((List.range m).map f)).getD K 0
        = ((sequenceRun L ((List.range m).map f)).take (K + 1)).getD K 0 := by
      simp only [List.getD_eq_getElem?_getD]
      rw [List.getElem?_take_of_lt (by omega)]
    rw [hget, htake, List.getD_append_right _ _ _ _ (by simp)]
    simp

/-- C1. Strict monotonicity of the timestamp sequencer in `main`: for every
environment (every sequence of clock readings, equal and decreasing ones
included), every input and every state in which the loop starts (every
initial `last_timestamp`), when neither the initial `last_timestamp` nor a
timestamp assigned by a pass reaches `2 ^ 64 - 1`, the initial value followed
by the timestamps that the successive passes of `main_loop` assign in the
sequencing step is strictly increasing from each entry to the next:
`last_timestamp < t_1` and `t_i < t_{i+1}`. -/
theorem main_loop_timestamps_strictly_increasing (env : Env) (cp : CStr) (stdin : List CStr)
    (st : LoopState)
    (htop : ∀ v ∈ st.last_timestamp :: assignedTimestamps env cp stdin st, v < U64 - 1) :
    List.Chain' (fun a b => a < b)
      (st.last_timestamp :: assignedTimestamps env cp stdin st) := by
  obtain ⟨m, hm⟩ := assignedTimestamps_eq_sequenceRun env cp stdin st
  rw [hm] at htop ⊢
  exact sequenceRun_chain _ _ htop

theorem main_loop_timestamps_strictly_increasing_witness :
    (∀ v ∈ (7 : Nat) :: assignedTimestamps skewClockEnv "mel1".toList mixedInput ⟨7, 0, []⟩,
      v < U64 - 1) ∧
    assignedTimestamps skewClockEnv "mel1".toList mixedInput ⟨7, 0, []⟩ = [8, 9, 10, 50] ∧
    List.Chain' (fun a b => a < b)
      ((7 : Nat) :: assignedTimestamps skewClockEnv "mel1".toList mixedInput ⟨7, 0, []⟩) :=
  ⟨by decide, by decide,
    main_loop_timestamps_strictly_increasing skewClockEnv "mel1".toList mixedInput ⟨7, 0, []⟩
      (by decide)⟩

/-- C10. Clock-skew compensation in `main`: the loop starts with
`last_timestamp = L` after `c` clock calls. When at least `K` passes go
through the sequencing step, the clock reading of each of the first `K` of
them (the calls `c, ..., c + K - 1`) is at most the value `last_timestamp`
holds at that pass, and `L + K ≤ 2 ^ 64 - 1`, the first `K` timestamps that
`main_loop` assigns are `L + 1, ..., L + K`; and when a further pass goes
through the step with a reading greater than `L + K`, it is assigned that
reading. -/
theorem main_loop_skew_compensation (env : Env) (cp : CStr) (stdin : List CStr)
    (st : LoopState) (K : Nat)
    (hK : K ≤ (assignedTimestamps env cp stdin st).length)
    (hstale : ∀ i, i < K → clockReading env (st.clockCalls + i)
      ≤ (st.last_timestamp :: assignedTimestamps env cp stdin st).getD i 0)
    (hrange : st.last_timestamp + K ≤ U64 - 1) :
    (assignedTimestamps env cp stdin st).take K = List.range' (st.last_timestamp + 1) K ∧
    (K < (assignedTimestamps env cp stdin st).length →
      st.last_timestamp + K < clockReading env (st.clockCalls + K) →
      (assignedTimestamps env cp stdin st).getD K 0
        = clockReading env (st.clockCalls + K)) := by
  obtain ⟨m, hm⟩ := assignedTimestamps_eq_sequenceRun env cp stdin st
  have hlen : (assignedTimestamps env cp stdin st).length = m := by
    rw [hm, sequenceRun_length, List.length_map, List.length_range]
  rw [hlen] at hK ⊢
  rw [hm] at hstale ⊢
  exact sequenceRun_readings_skew (fun i => clockReading env (st.clockCalls + i))
    st.last_timestamp m K hK hstale hrange

theorem main_loop_skew_compensation_witness :
    3 ≤ (assignedTimestamps skewClockEnv "mel1".toList mixedInput ⟨7, 0, []⟩).length ∧
    (∀ i, i < 3 → clockReading skewClockEnv (0 + i)
      ≤ ((7 : Nat) :: assignedTimestamps skewClockEnv "mel1".toList mixedInput
          ⟨7, 0, []⟩).getD i 0) ∧
    7 + 3 ≤ U64 - 1 ∧
    (assignedTimestamps skewClockEnv "mel1".toList mixedInput ⟨7, 0, []⟩).take 3
      = [8, 9, 10] ∧
    (assignedTimestamps skewClockEnv "mel1".toList mixedInput ⟨7, 0, []⟩).getD 3 0 = 50 :=
  have h := main_loop_skew_compensation skewClockEnv "mel1".toList mixedInput ⟨7, 0, []⟩ 3
    (by decide) (by decide) (by decide)
  ⟨by decide, by decide, by decide, h.1, (h.2 (by decide) (by decide)).trans (by decide)⟩

end Pmacct2Vault
